import Mathlib

/-!
Verification development for the knife-throwing arcade game
(single-file React Native source, `src/unnamed/part_000`).

The game-rules core is shallowly embedded here:
* angles are rationals (the source uses JS numbers; every arithmetic
  operation performed on angles is exact on rationals),
* the component's `useState` fields become one `GameSt` structure,
* every handler (`throwKnife`, `watchAdContinue`, `watchAdDouble`,
  `claimDailyReward`, `initGame`, `startBossLevel`, `restartGame`,
  `nextStage`) becomes a function `GameSt → GameSt`; the throw is
  resolved synchronously (flight animation and the 100 ms win delay
  collapse to one atomic resolution, as the design allows),
* purely presentational state (explosion list, coin popup, high-score
  mirror, animations, sounds) is omitted: the game logic never reads it.

User-visible events form a step relation `Step`; the guards of the
steps are the render conditions of the corresponding `Pressable`s.
-/

-- ==================== GAME CONFIG (source lines 20-26) ====================

def BASE_KNIVES : Nat := 10
def BASE_APPLES : Nat := 10
def ROTATION_SPEED : ℚ := 3/2
def COLLISION_GAP : ℚ := 18
def APPLE_GAP : ℚ := 15

-- ==================== BOSS CONFIG (source lines 29-35) ====================

structure BossData where
  stage : Nat
  name : String
  color : String
  bgColor : String
  knives : Nat
  apples : Nat
  speed : ℚ
  reward : Nat
deriving DecidableEq, Repr

def BOSSES : List BossData :=
  [ ⟨5,  "🧀 CHEESE BOSS", "#FFD700", "#FFA000", 12, 8, 2,    200⟩,
    ⟨10, "🍉 WATERMELON",  "#4CAF50", "#2E7D32", 14, 6, 11/5, 300⟩,
    ⟨15, "🎂 CAKE BOSS",   "#E91E63", "#C2185B", 15, 5, 5/2,  400⟩,
    ⟨20, "🍊 ORANGE BOSS", "#FF9800", "#F57C00", 16, 4, 14/5, 500⟩,
    ⟨25, "💎 DIAMOND",     "#00BCD4", "#0097A7", 18, 3, 3,    1000⟩ ]

-- ==================== DAILY REWARDS (source line 38) ====================

def DAILY_REWARDS : List Nat := [50, 100, 150, 200, 300, 500, 1000]

-- ==================== TYPES (source lines 41-58) ====================

inductive GameState where
  | ready
  | playing
  | failed
  | win
  | boss_intro
deriving DecidableEq, Repr

structure AppleData where
  id : Nat
  angle : ℚ
  visible : Bool
deriving DecidableEq, Repr

/-- All component state the game logic reads or writes
(source lines 371-396, omitting render-only fields). -/
structure GameSt where
  rotation : ℚ
  stuckKnives : List ℚ
  apples : List AppleData
  knivesLeft : Int
  gameState : GameState
  stage : Nat
  score : Nat
  applesHit : Nat
  isThrowing : Bool
  hasUsedContinue : Bool
  currentBoss : Option BossData
  isBossLevel : Bool
  coins : Nat
  showDailyReward : Bool
  rewardDay : Nat
  dailyRewardAmount : Nat
deriving DecidableEq, Repr

-- ==================== ANGLE MATH ====================

/-- JS `%` on the nonnegative operands used throughout the source
(`(… + 360) % 360`, `(rotation + speed) % 360`,
`(offset + i * (360/count)) % 360`): floored remainder. -/
def jsMod (x y : ℚ) : ℚ := x - y * (⌊x / y⌋ : ℚ)

/-- The angular-difference computation inlined twice in `throwKnife`
(source lines 548-549 and 564-565):
`diff = |a - b|; if diff > 180 then diff = 360 - diff`. -/
def angDiff (a b : ℚ) : ℚ :=
  let d := |a - b|
  if 180 < d then 360 - d else d

-- ==================== DERIVED STAGE DATA ====================

/-- Boss lookup `BOSSES.find(b => b.stage === stageNum) || null` (source lines 457-459). -/
def getBossForStage (stageNum : Nat) : Option BossData :=
  BOSSES.find? (fun b => b.stage = stageNum)

/-- Knife budget of the current stage,
`isBossLevel && currentBoss ? currentBoss.knives : BASE_KNIVES` (source line 590). -/
def totalKnivesOf (s : GameSt) : Nat :=
  match s.isBossLevel, s.currentBoss with
  | true, some b => b.knives
  | _, _ => BASE_KNIVES

/-- Stage-completion reward,
`let stageReward = 50; if (isBossLevel && currentBoss) stageReward = currentBoss.reward`
(source lines 596-599); the same expression is the double-reward bonus
(source line 643). -/
def stageRewardOf (s : GameSt) : Nat :=
  match s.isBossLevel, s.currentBoss with
  | true, some b => b.reward
  | _, _ => 50

/-- Effective rotation speed (source lines 508-509):
`(isBossLevel && currentBoss ? currentBoss.speed : ROTATION_SPEED) + (stage - 1) * 0.1`. -/
def speedOf (s : GameSt) : ℚ :=
  (match s.isBossLevel, s.currentBoss with
   | true, some b => b.speed
   | _, _ => ROTATION_SPEED) + ((s.stage : ℚ) - 1) * (1/10)

-- ==================== TARGET GENERATION (source lines 443-454) ====================

/-- Target generation `generateApples(count)`: `count` apples at
`(offset + i * (360 / count)) % 360`, all visible, ids from 0.
The `Math.random() * (360 / count)` offset is passed in as a parameter. -/
def generateApples (count : Nat) (offset : ℚ) : List AppleData :=
  (List.range count).map fun i =>
    ⟨i, jsMod (offset + (i : ℚ) * (360 / (count : ℚ))) 360, true⟩

-- ==================== THROW RESOLUTION (source lines 532-611) ====================

/-- Resolved impact angle `const hitAngle = (180 - rotationRef.current + 360) % 360`
(source line 539). -/
def hitAngleOf (s : GameSt) : ℚ := jsMod (180 - s.rotation + 360) 360

/-- The collision scan over `stuckKnives` (source lines 547-555):
some stuck knife is strictly closer than `COLLISION_GAP`. -/
def wouldCollide (ledger : List ℚ) (cand : ℚ) : Bool :=
  ledger.any fun k => decide (angDiff k cand < COLLISION_GAP)

/-- How many visible apples are strictly closer than `APPLE_GAP`
(the `appleHitCount` accumulator, source lines 561-572). -/
def appleHitCount (apples : List AppleData) (hit : ℚ) : Nat :=
  (apples.filter fun a => a.visible && decide (angDiff a.angle hit < APPLE_GAP)).length

/-- The `apples.map` marking hit apples invisible (source lines 562-572). -/
def markApples (apples : List AppleData) (hit : ℚ) : List AppleData :=
  apples.map fun a =>
    if a.visible && decide (angDiff a.angle hit < APPLE_GAP)
    then { a with visible := false } else a

/-- The non-colliding part of throw resolution (source lines 558-609):
apple credit when `appleHitCount > 0`, append the knife, decrement the
budget, +10 score, and the win check `newKnives.length >= totalKnives`
(the 100 ms win `setTimeout` is resolved synchronously). -/
def resolveHit (s : GameSt) (hit : ℚ) : GameSt :=
  let hits := appleHitCount s.apples hit
  let base : GameSt :=
    { s with
      apples := if 0 < hits then markApples s.apples hit else s.apples,
      score := (if 0 < hits then s.score + 5 * hits else s.score) + 10,
      applesHit := if 0 < hits then s.applesHit + hits else s.applesHit,
      coins := if 0 < hits then s.coins + 5 * hits else s.coins,
      stuckKnives := s.stuckKnives ++ [hit],
      knivesLeft := s.knivesLeft - 1 }
  if totalKnivesOf s ≤ s.stuckKnives.length + 1 then
    { base with
      score := base.score + stageRewardOf s,
      coins := base.coins + stageRewardOf s,
      gameState := .win }
  else base

/-- The throw handler `throwKnife` (source lines 532-611), resolved atomically: the guard
(line 533), the collision branch (lines 547-555, which changes only the
phase: `isThrowing` was false on entry and is false again on exit), and
the non-colliding resolution. -/
def throwKnife (s : GameSt) : GameSt :=
  if s.gameState ≠ .playing ∨ s.knivesLeft ≤ 0 ∨ s.isThrowing = true then s
  else
    let hit := hitAngleOf s
    if wouldCollide s.stuckKnives hit then { s with gameState := .failed }
    else resolveHit s hit

-- ==================== ROTATION TICK (source lines 505-521) ====================

/-- One frame of the rotation loop:
`rotationRef.current = (rotationRef.current + speed) % 360`. -/
def tickFn (s : GameSt) : GameSt :=
  { s with rotation := jsMod (s.rotation + speedOf s) 360 }

-- ==================== ROUND SETUP ====================

/-- Round setup `initGame(stageNum)` (source lines 462-485): a boss stage only shows
the intro; a normal stage resets the round data. -/
def initGame (stageNum : Nat) (offset : ℚ) (s : GameSt) : GameSt :=
  match getBossForStage stageNum with
  | some boss =>
      { s with currentBoss := some boss, isBossLevel := true, gameState := .boss_intro }
  | none =>
      { s with
        currentBoss := none, isBossLevel := false,
        apples := generateApples BASE_APPLES offset,
        stuckKnives := [],
        knivesLeft := (BASE_KNIVES : Int),
        applesHit := 0,
        hasUsedContinue := false,
        rotation := 0,
        isThrowing := false,
        gameState := .playing }

/-- Boss round setup `startBossLevel` (source lines 488-502). -/
def startBossLevel (offset : ℚ) (s : GameSt) : GameSt :=
  match s.currentBoss with
  | none => s
  | some boss =>
      { s with
        apples := generateApples boss.apples offset,
        stuckKnives := [],
        knivesLeft := (boss.knives : Int),
        applesHit := 0,
        hasUsedContinue := false,
        rotation := 0,
        isThrowing := false,
        gameState := .playing }

-- ==================== AD / ECONOMY HANDLERS ====================

/-- The raw handler `watchAdContinue` (source lines 633-638), with no
guard of its own. -/
def watchAdContinue (s : GameSt) : GameSt :=
  { s with hasUsedContinue := true, knivesLeft := 3, gameState := .playing }

/-- A press of the continue button. The handler is reachable only through
the failed-screen overlay (source line 808, `gameState === 'failed'`) and
the `!hasUsedContinue` render condition (source line 816); anywhere else
the press hits nothing. -/
def pressContinue (s : GameSt) : GameSt :=
  if s.gameState = .failed ∧ s.hasUsedContinue = false then watchAdContinue s else s

/-- Stage advance `nextStage` (source lines 659-663). -/
def nextStage (offset : ℚ) (s : GameSt) : GameSt :=
  initGame (s.stage + 1) offset { s with stage := s.stage + 1 }

/-- Double-reward handler `watchAdDouble` (source lines 641-647). -/
def watchAdDouble (offset : ℚ) (s : GameSt) : GameSt :=
  nextStage offset { s with coins := s.coins + stageRewardOf s }

/-- Restart handler `restartGame` (source lines 650-656). -/
def restartGame (offset : ℚ) (s : GameSt) : GameSt :=
  initGame 1 offset
    { s with score := 0, stage := 1, isBossLevel := false, currentBoss := none }

/-- Daily-reward claim `claimDailyReward` (source lines 619-630): credit the amount fixed at
load time, advance the streak day by `(rewardDay % DAILY_REWARDS.length) + 1`,
dismiss the modal. -/
def claimDailyReward (s : GameSt) : GameSt :=
  { s with
    coins := s.coins + s.dailyRewardAmount,
    rewardDay := (s.rewardDay % DAILY_REWARDS.length) + 1,
    showDailyReward := false }

-- ==================== INITIAL STATE (source lines 371-427) ====================

/-- Loaded reward amount `DAILY_REWARDS[(savedRewardDay - 1) % DAILY_REWARDS.length]`
(source line 420). -/
def dailyRewardFor (d : Nat) : Nat :=
  DAILY_REWARDS.getD ((d - 1) % DAILY_REWARDS.length) 0

/-- The component state after mount and `loadSavedData` (source lines
371-427): the `useState` initial values, with the persisted coin balance
and streak day loaded, and the daily-reward modal shown when the stored
claim date is not today (`pending`). -/
def mkInit (c d : Nat) (pending : Bool) : GameSt :=
  { rotation := 0,
    stuckKnives := [],
    apples := [],
    knivesLeft := (BASE_KNIVES : Int),
    gameState := .ready,
    stage := 1,
    score := 0,
    applesHit := 0,
    isThrowing := false,
    hasUsedContinue := false,
    currentBoss := none,
    isBossLevel := false,
    coins := c,
    showDailyReward := pending,
    rewardDay := d,
    dailyRewardAmount := if pending then dailyRewardFor d else 50 }

-- ==================== EVENTS AND THE STEP RELATION ====================

/-- The user-visible events of the component. Offsets stand for the
`Math.random()` draw inside `generateApples`. -/
inductive Act where
  | tick
  | throw
  | playBtn (offset : ℚ)
  | restartBtn (offset : ℚ)
  | nextBtn (offset : ℚ)
  | doubleBtn (offset : ℚ)
  | continueBtn
  | bossStartBtn (offset : ℚ)
  | claimBtn

/-- Range of the random draw `Math.random() * (360 / count)`: it lands in `[0, 360 / count)`. -/
def offsetOk (count : Nat) (offset : ℚ) : Bool :=
  decide (0 ≤ offset) && decide (offset * (count : ℚ) < 360)

/-- When each event can fire: the rotation loop runs only while playing
(source line 506); each button exists only on the screen that renders it
(PLAY line 800, RESTART line 826, NEXT/double lines 847-857, continue
lines 808 and 816, boss FIGHT line 773, daily claim line 765). `throw`
carries its guard inside `throwKnife` itself (source line 533). -/
def guardOf : Act → GameSt → Bool
  | .tick, s => decide (s.gameState = .playing)
  | .throw, _ => true
  | .playBtn offset, s => decide (s.gameState = .ready) && offsetOk BASE_APPLES offset
  | .restartBtn offset, s => decide (s.gameState = .failed) && offsetOk BASE_APPLES offset
  | .nextBtn offset, s => decide (s.gameState = .win) && offsetOk BASE_APPLES offset
  | .doubleBtn offset, s => decide (s.gameState = .win) && offsetOk BASE_APPLES offset
  | .continueBtn, s => decide (s.gameState = .failed) && !s.hasUsedContinue
  | .bossStartBtn offset, s =>
      decide (s.gameState = .boss_intro) &&
        (match s.currentBoss with
         | some b => offsetOk b.apples offset
         | none => true)
  | .claimBtn, s => s.showDailyReward

def applyAct : Act → GameSt → GameSt
  | .tick, s => tickFn s
  | .throw, s => throwKnife s
  | .playBtn offset, s => initGame 1 offset s
  | .restartBtn offset, s => restartGame offset s
  | .nextBtn offset, s => nextStage offset s
  | .doubleBtn offset, s => watchAdDouble offset s
  | .continueBtn, s => watchAdContinue s
  | .bossStartBtn offset, s => startBossLevel offset s
  | .claimBtn, s => claimDailyReward s

/-- One step of the game: an event whose guard holds. -/
inductive Step : GameSt → GameSt → Prop where
  | mk (a : Act) (s : GameSt) (h : guardOf a s = true) : Step s (applyAct a s)

/-- Reachable states: some valid load (persisted streak day is always in
1..7: the default is 1 and every write is `(d % 7) + 1`), followed by any
sequence of steps. -/
def Reachable (s : GameSt) : Prop :=
  ∃ c d : Nat, ∃ pending : Bool,
    1 ≤ d ∧ d ≤ 7 ∧ Relation.ReflTransGen Step (mkInit c d pending) s

-- ==================== EXECUTABLE RUNS ====================

def execActs : List Act → GameSt → GameSt
  | [], s => s
  | a :: rest, s => execActs rest (applyAct a s)

def validSeq : List Act → GameSt → Bool
  | [], _ => true
  | a :: rest, s => guardOf a s && validSeq rest (applyAct a s)

theorem reflTransGen_execActs (acts : List Act) :
    ∀ s : GameSt, validSeq acts s = true →
      Relation.ReflTransGen Step s (execActs acts s) := by
  induction acts with
  | nil => intro s _; exact Relation.ReflTransGen.refl
  | cons a rest ih =>
      intro s h
      simp only [validSeq, Bool.and_eq_true] at h
      exact Relation.ReflTransGen.head (Step.mk a s h.1) (ih _ h.2)

-- ==================== A CONCRETE WINNING RUN ====================

/-- Event sequence for a full stage-1 clear: PLAY with apple offset 0,
then ten throws with 14/24 rotation frames between them, landing knives
at 159°, 123°, 87°, 51°, 15°, 339°, 303°, 267°, 231°, 195°: pairwise
36° apart and exactly 15° from the nearest apple (so no apple is hit). -/
def winActs : List Act :=
  Act.playBtn 0 ::
    (List.replicate 14 Act.tick ++ [Act.throw] ++
      (List.replicate 9 (List.replicate 24 Act.tick ++ [Act.throw])).flatten)

/-- The state just before the final throw of the run. -/
def winPre : GameSt := execActs winActs.dropLast (mkInit 0 1 false)

/-- The state after the final throw of the run. -/
def winFinal : GameSt := throwKnife winPre

set_option maxRecDepth 100000

-- ==================== ANGLE LEMMAS ====================

theorem ratFloor_eq_intFloor (q : ℚ) : q.floor = ⌊q⌋ :=
  (Rat.floor_def' q).trans Rat.floor_def.symm

theorem jsMod_eq_self {x : ℚ} (h0 : 0 ≤ x) (h1 : x < 360) : jsMod x 360 = x := by
  have hz : ⌊x / 360⌋ = 0 := by
    rw [Int.floor_eq_zero_iff]
    constructor
    · positivity
    · rw [div_lt_one (by norm_num)]; simpa using h1
  simp [jsMod, ratFloor_eq_intFloor, hz]

-- ==================== TARGET SPACING (for the distributedAngles claim) ====================

/-- The angles of a generated target field, in generation order. -/
def appleAngles (count : Nat) (offset : ℚ) : List ℚ :=
  (generateApples count offset).map AppleData.angle

theorem appleAngles_eq_map (count : Nat) (offset : ℚ) :
    appleAngles count offset =
      (List.range count).map
        (fun i : Nat => jsMod (offset + (i : ℚ) * (360 / (count : ℚ))) 360) := by
  simp [appleAngles, generateApples, List.map_map]

theorem gen_angle_bounds (count i : Nat) (hcount : 0 < count) (hi : i < count) (offset : ℚ)
    (h0 : 0 ≤ offset) (hlt : offset < 360 / (count : ℚ)) :
    0 ≤ offset + (i : ℚ) * (360 / (count : ℚ)) ∧
      offset + (i : ℚ) * (360 / (count : ℚ)) < 360 := by
  have hc : (0 : ℚ) < (count : ℚ) := by exact_mod_cast hcount
  have hg : (0 : ℚ) < 360 / (count : ℚ) := by positivity
  constructor
  · have : (0 : ℚ) ≤ (i : ℚ) * (360 / (count : ℚ)) := by positivity
    linarith
  · have hi' : ((i : ℚ) + 1) ≤ (count : ℚ) := by exact_mod_cast hi
    have h2 : ((i : ℚ) + 1) * (360 / (count : ℚ)) ≤ (count : ℚ) * (360 / (count : ℚ)) :=
      mul_le_mul_of_nonneg_right hi' (le_of_lt hg)
    have h3 : (count : ℚ) * (360 / (count : ℚ)) = 360 := by
      field_simp
    nlinarith

theorem appleAngles_eq_raw (count : Nat) (offset : ℚ) (hcount : 0 < count)
    (h0 : 0 ≤ offset) (hlt : offset < 360 / (count : ℚ)) :
    appleAngles count offset =
      (List.range count).map (fun i : Nat => offset + (i : ℚ) * (360 / (count : ℚ))) := by
  rw [appleAngles_eq_map]
  apply List.map_congr_left
  intro i hi
  rw [List.mem_range] at hi
  obtain ⟨hb0, hb1⟩ := gen_angle_bounds count i hcount hi offset h0 hlt
  exact jsMod_eq_self hb0 hb1

/-- C8: for every count in 3..20 and offset in `[0, 360/count)`, the
generated target field has exactly `count` angles, each in `[0, 360)`,
listed in increasing order with consecutive spacing exactly `360/count`,
and with wrap-around gap also `360/count`. -/
theorem distributedAngles_spacing (n : Nat) (offset : ℚ)
    (h3 : 3 ≤ n) (h20 : n ≤ 20) (h0 : 0 ≤ offset) (hlt : offset < 360 / (n : ℚ)) :
    (appleAngles n offset).length = n ∧
    (∀ x ∈ appleAngles n offset, 0 ≤ x ∧ x < 360) ∧
    List.Sorted (· < ·) (appleAngles n offset) ∧
    (∀ i : Nat, ∀ hi : i + 1 < (appleAngles n offset).length,
      (appleAngles n offset)[i + 1] - (appleAngles n offset)[i] = 360 / (n : ℚ)) ∧
    (∀ hn0 : 0 < (appleAngles n offset).length,
      ∀ hn1 : n - 1 < (appleAngles n offset).length,
      (appleAngles n offset)[0] + 360 - (appleAngles n offset)[n - 1] = 360 / (n : ℚ)) := by
  have hn : 0 < n := by omega
  have hcQ : (0 : ℚ) < (n : ℚ) := by exact_mod_cast hn
  have hraw := appleAngles_eq_raw n offset hn h0 hlt
  rw [hraw]
  refine ⟨by simp, ?_, ?_, ?_, ?_⟩
  · intro x hx
    rw [List.mem_map] at hx
    obtain ⟨i, hi, rfl⟩ := hx
    rw [List.mem_range] at hi
    exact gen_angle_bounds n i hn hi offset h0 hlt
  · rw [List.Sorted, List.pairwise_map]
    have hmono : ∀ i j : Nat, i < j →
        offset + (i : ℚ) * (360 / (n : ℚ)) < offset + (j : ℚ) * (360 / (n : ℚ)) := by
      intro i j hij
      have hg : (0 : ℚ) < 360 / (n : ℚ) := by positivity
      have : (i : ℚ) < (j : ℚ) := by exact_mod_cast hij
      nlinarith
    exact List.pairwise_lt_range n |>.imp (fun {a b} h => hmono a b h)
  · intro i hi
    simp only [List.length_map, List.length_range] at hi
    simp only [List.getElem_map, List.getElem_range]
    push_cast
    ring
  · intro hn0 hn1
    simp only [List.length_map, List.length_range] at hn0 hn1
    simp only [List.getElem_map, List.getElem_range]
    have hcast : ((n - 1 : Nat) : ℚ) = (n : ℚ) - 1 := by
      have : 1 ≤ n := by omega
      push_cast [this]
      ring
    rw [hcast]
    have hne : (n : ℚ) ≠ 0 := ne_of_gt hcQ
    field_simp
    ring

/-- Witness for `distributedAngles_spacing` at `n = 4`, `offset = 10`. -/
theorem distributedAngles_spacing_witness :
    (appleAngles 4 10).length = 4 := by
  have h := distributedAngles_spacing 4 10 (by norm_num) (by norm_num) (by norm_num)
    (by norm_num)
  exact h.1

-- ==================== THROW-RESOLUTION CASE LEMMAS ====================

theorem throwKnife_noop (s : GameSt)
    (h : s.gameState ≠ .playing ∨ s.knivesLeft ≤ 0 ∨ s.isThrowing = true) :
    throwKnife s = s := by
  simp [throwKnife, h]

theorem throwKnife_collide (s : GameSt)
    (hp : s.gameState = .playing) (hk : 0 < s.knivesLeft) (ht : s.isThrowing = false)
    (hc : wouldCollide s.stuckKnives (hitAngleOf s) = true) :
    throwKnife s = { s with gameState := .failed } := by
  rw [throwKnife, if_neg, if_pos hc]
  push_neg
  exact ⟨hp, by omega, by simp [ht]⟩

theorem throwKnife_clean (s : GameSt)
    (hp : s.gameState = .playing) (hk : 0 < s.knivesLeft) (ht : s.isThrowing = false)
    (hc : wouldCollide s.stuckKnives (hitAngleOf s) = false) :
    throwKnife s = resolveHit s (hitAngleOf s) := by
  rw [throwKnife, if_neg, if_neg (by simp [hc])]
  push_neg
  exact ⟨hp, by omega, by simp [ht]⟩

theorem resolveHit_stuckKnives (s : GameSt) (hit : ℚ) :
    (resolveHit s hit).stuckKnives = s.stuckKnives ++ [hit] := by
  rw [resolveHit]
  split <;> rfl

theorem resolveHit_currentBoss (s : GameSt) (hit : ℚ) :
    (resolveHit s hit).currentBoss = s.currentBoss := by
  rw [resolveHit]; split <;> rfl

theorem resolveHit_isBossLevel (s : GameSt) (hit : ℚ) :
    (resolveHit s hit).isBossLevel = s.isBossLevel := by
  rw [resolveHit]; split <;> rfl

theorem resolveHit_gameState (s : GameSt) (hit : ℚ) :
    (resolveHit s hit).gameState =
      if totalKnivesOf s ≤ s.stuckKnives.length + 1 then .win else s.gameState := by
  rw [resolveHit]
  split <;> simp_all

theorem totalKnivesOf_congr (s s' : GameSt)
    (h1 : s'.isBossLevel = s.isBossLevel) (h2 : s'.currentBoss = s.currentBoss) :
    totalKnivesOf s' = totalKnivesOf s := by
  rw [totalKnivesOf, totalKnivesOf, h1, h2]

-- ==================== THE ROUND-STATE INVARIANT ====================

/-- Every boss record held by a reachable state comes from the static table. -/
def bossOk : Option BossData → Prop
  | none => True
  | some b => b ∈ BOSSES

/-- The inductive invariant of the round state machine: the held boss is
from the table; while playing or failed the ledger is strictly below the
stage's knife budget; in a win it equals the budget; and the ledger is
pairwise separated by at least `COLLISION_GAP`. -/
def RoundInv (s : GameSt) : Prop :=
  bossOk s.currentBoss ∧
  (s.gameState = .playing → s.stuckKnives.length < totalKnivesOf s) ∧
  (s.gameState = .failed → s.stuckKnives.length < totalKnivesOf s) ∧
  (s.gameState = .win → s.stuckKnives.length = totalKnivesOf s) ∧
  List.Pairwise (fun a b => COLLISION_GAP ≤ angDiff a b) s.stuckKnives

theorem bosses_knives_pos : ∀ b ∈ BOSSES, 0 < b.knives := by decide

theorem totalKnivesOf_pos (s : GameSt) (h : bossOk s.currentBoss) :
    0 < totalKnivesOf s := by
  rw [totalKnivesOf]
  rcases hb : s.currentBoss with _ | b
  · rcases s.isBossLevel <;> simp [BASE_KNIVES]
  · rcases s.isBossLevel <;> simp [BASE_KNIVES]
    rw [hb] at h
    exact bosses_knives_pos b h

theorem inv_mkInit (c d : Nat) (pending : Bool) : RoundInv (mkInit c d pending) := by
  refine ⟨trivial, ?_, ?_, ?_, List.Pairwise.nil⟩ <;> intro h <;> simp [mkInit] at h

theorem getBossForStage_mem (n : Nat) (b : BossData) (h : getBossForStage n = some b) :
    b ∈ BOSSES := by
  rw [getBossForStage] at h
  exact List.mem_of_find?_eq_some h

theorem inv_initGame (n : Nat) (offset : ℚ) (s : GameSt)
    (hpw : List.Pairwise (fun a b => COLLISION_GAP ≤ angDiff a b) s.stuckKnives) :
    RoundInv (initGame n offset s) := by
  rw [initGame]
  rcases hb : getBossForStage n with _ | b
  · exact ⟨trivial, fun _ => by simp [totalKnivesOf, BASE_KNIVES], fun h => by simp at h,
      fun h => by simp at h, List.Pairwise.nil⟩
  · exact ⟨getBossForStage_mem n b hb, fun h => by simp at h, fun h => by simp at h,
      fun h => by simp at h, hpw⟩

theorem inv_startBossLevel (offset : ℚ) (s : GameSt) (hinv : RoundInv s) :
    RoundInv (startBossLevel offset s) := by
  rw [startBossLevel]
  rcases hb : s.currentBoss with _ | b
  · exact hinv
  · obtain ⟨hbok, -, -, -, -⟩ := hinv
    have hmem : b ∈ BOSSES := by rw [hb] at hbok; exact hbok
    refine ⟨by simp [bossOk, hb]; exact hmem, ?_, fun h => by simp at h,
      fun h => by simp at h, List.Pairwise.nil⟩
    intro _
    simp only [List.length_nil]
    rcases hbl : s.isBossLevel <;> simp [totalKnivesOf, hb, hbl, BASE_KNIVES]
    exact bosses_knives_pos b hmem

theorem wouldCollide_false_iff (ledger : List ℚ) (cand : ℚ) :
    wouldCollide ledger cand = false ↔
      ∀ k ∈ ledger, COLLISION_GAP ≤ angDiff k cand := by
  simp [wouldCollide, not_lt]

theorem wouldCollide_true_iff (ledger : List ℚ) (cand : ℚ) :
    wouldCollide ledger cand = true ↔
      ∃ k ∈ ledger, angDiff k cand < COLLISION_GAP := by
  simp [wouldCollide]

theorem roundInv_congr (s s' : GameSt) (h1 : s'.currentBoss = s.currentBoss)
    (h2 : s'.isBossLevel = s.isBossLevel) (h3 : s'.gameState = s.gameState)
    (h4 : s'.stuckKnives = s.stuckKnives) (hinv : RoundInv s) : RoundInv s' := by
  obtain ⟨ha, hb, hc, hd, he⟩ := hinv
  have ht : totalKnivesOf s' = totalKnivesOf s := totalKnivesOf_congr s s' h2 h1
  refine ⟨by rw [h1]; exact ha, ?_, ?_, ?_, by rw [h4]; exact he⟩
  · intro h; rw [h4, ht]; exact hb (by rw [← h3]; exact h)
  · intro h; rw [h4, ht]; exact hc (by rw [← h3]; exact h)
  · intro h; rw [h4, ht]; exact hd (by rw [← h3]; exact h)

theorem inv_resolveHit (s : GameSt) (hinv : RoundInv s) (hp : s.gameState = .playing)
    (hc : wouldCollide s.stuckKnives (hitAngleOf s) = false) :
    RoundInv (resolveHit s (hitAngleOf s)) := by
  obtain ⟨hbok, hplay, hfail, hwin, hpw⟩ := hinv
  have hlen : s.stuckKnives.length < totalKnivesOf s := hplay hp
  have htot : totalKnivesOf (resolveHit s (hitAngleOf s)) = totalKnivesOf s :=
    totalKnivesOf_congr s _ (resolveHit_isBossLevel s _) (resolveHit_currentBoss s _)
  have hstuck := resolveHit_stuckKnives s (hitAngleOf s)
  have hgs := resolveHit_gameState s (hitAngleOf s)
  have hpw' : List.Pairwise (fun a b => COLLISION_GAP ≤ angDiff a b)
      (s.stuckKnives ++ [hitAngleOf s]) := by
    rw [List.pairwise_append]
    refine ⟨hpw, List.pairwise_singleton _ _, ?_⟩
    intro a ha b hb
    rw [List.mem_singleton] at hb
    subst hb
    exact (wouldCollide_false_iff s.stuckKnives (hitAngleOf s)).mp hc a ha
  refine ⟨by rw [resolveHit_currentBoss]; exact hbok, ?_, ?_, ?_,
    by rw [hstuck]; exact hpw'⟩
  · intro h
    rw [hgs] at h
    by_cases hT : totalKnivesOf s ≤ s.stuckKnives.length + 1
    · rw [if_pos hT] at h; simp at h
    · rw [hstuck, htot, List.length_append, List.length_singleton]; omega
  · intro h
    rw [hgs] at h
    by_cases hT : totalKnivesOf s ≤ s.stuckKnives.length + 1
    · rw [if_pos hT] at h; simp at h
    · rw [if_neg hT, hp] at h; simp at h
  · intro h
    rw [hgs] at h
    by_cases hT : totalKnivesOf s ≤ s.stuckKnives.length + 1
    · rw [hstuck, htot, List.length_append, List.length_singleton]; omega
    · rw [if_neg hT, hp] at h; simp at h

theorem inv_throwKnife (s : GameSt) (hinv : RoundInv s) : RoundInv (throwKnife s) := by
  by_cases hguard : s.gameState ≠ .playing ∨ s.knivesLeft ≤ 0 ∨ s.isThrowing = true
  · rw [throwKnife_noop s hguard]; exact hinv
  · push_neg at hguard
    obtain ⟨hp, hk, ht⟩ := hguard
    have hk' : 0 < s.knivesLeft := hk
    have ht' : s.isThrowing = false := by
      rcases hb : s.isThrowing
      · rfl
      · exact absurd hb ht
    rcases hcol : wouldCollide s.stuckKnives (hitAngleOf s) with _ | _
    · rw [throwKnife_clean s hp hk' ht' hcol]
      exact inv_resolveHit s ⟨hinv.1, hinv.2.1, hinv.2.2.1, hinv.2.2.2.1, hinv.2.2.2.2⟩ hp hcol
    · rw [throwKnife_collide s hp hk' ht' hcol]
      obtain ⟨hbok, hplay, hfail, hwin, hpw⟩ := hinv
      refine ⟨hbok, ?_, ?_, ?_, hpw⟩
      · intro h; simp at h
      · intro _; exact hplay hp
      · intro h; simp at h

theorem inv_step (s s' : GameSt) (hinv : RoundInv s) (hstep : Step s s') : RoundInv s' := by
  rcases hstep with ⟨a, s, hg⟩
  cases a with
  | tick => exact roundInv_congr s (tickFn s) rfl rfl rfl rfl hinv
  | throw => exact inv_throwKnife s hinv
  | playBtn offset => exact inv_initGame 1 offset s hinv.2.2.2.2
  | restartBtn offset => exact inv_initGame 1 offset _ hinv.2.2.2.2
  | nextBtn offset => exact inv_initGame (s.stage + 1) offset _ hinv.2.2.2.2
  | doubleBtn offset => exact inv_initGame (s.stage + 1) offset _ hinv.2.2.2.2
  | continueBtn =>
      simp only [guardOf, Bool.and_eq_true, decide_eq_true_eq] at hg
      obtain ⟨hf, -⟩ := hg
      obtain ⟨hbok, hplay, hfail, hwin, hpw⟩ := hinv
      refine ⟨hbok, ?_, ?_, ?_, hpw⟩
      · intro _; exact hfail hf
      · intro h; simp [applyAct, watchAdContinue] at h
      · intro h; simp [applyAct, watchAdContinue] at h
  | bossStartBtn offset => exact inv_startBossLevel offset s hinv
  | claimBtn => exact roundInv_congr s (claimDailyReward s) rfl rfl rfl rfl hinv

theorem inv_reachable (s : GameSt) (h : Reachable s) : RoundInv s := by
  obtain ⟨c, d, pending, -, -, hrt⟩ := h
  induction hrt with
  | refl => exact inv_mkInit c d pending
  | tail _ hbc ih => exact inv_step _ _ ih hbc

-- ==================== REACHABILITY OF THE CONCRETE RUN ====================

theorem reach_winPre : Relation.ReflTransGen Step (mkInit 0 1 false) winPre :=
  reflTransGen_execActs winActs.dropLast (mkInit 0 1 false) (by with_unfolding_all decide)

theorem step_winPre_winFinal : Step winPre winFinal :=
  Step.mk Act.throw winPre rfl

theorem reach_winFinal : Reachable winFinal :=
  ⟨0, 1, false, le_refl 1, by norm_num, reach_winPre.tail step_winPre_winFinal⟩

-- ==================== SMALL AUXILIARY LEMMAS AND STATES ====================

theorem angDiff_eq_min (a b : ℚ) : angDiff a b = min |a - b| (360 - |a - b|) := by
  show (if 180 < |a - b| then 360 - |a - b| else |a - b|) = _
  by_cases h : 180 < |a - b|
  · rw [if_pos h]
    exact (min_eq_right (by linarith)).symm
  · rw [if_neg h]
    push_neg at h
    exact (min_eq_left (by linarith)).symm

theorem initGame_not_win (n : Nat) (offset : ℚ) (s : GameSt) :
    (initGame n offset s).gameState ≠ GameState.win := by
  rcases hb : getBossForStage n with _ | b <;> simp [initGame, hb]

theorem initGame_coins (n : Nat) (offset : ℚ) (s : GameSt) :
    (initGame n offset s).coins = s.coins := by
  rcases hb : getBossForStage n with _ | b <;> simp [initGame, hb]

theorem initGame_score (n : Nat) (offset : ℚ) (s : GameSt) :
    (initGame n offset s).score = s.score := by
  rcases hb : getBossForStage n with _ | b <;> simp [initGame, hb]

theorem resolveHit_coins_ge (s : GameSt) (hit : ℚ) : s.coins ≤ (resolveHit s hit).coins := by
  unfold resolveHit
  dsimp only
  split <;> dsimp only <;> split <;> omega

theorem throwKnife_coins_ge (s : GameSt) : s.coins ≤ (throwKnife s).coins := by
  rw [throwKnife]
  split
  · exact le_refl _
  · dsimp only
    split
    · exact le_refl _
    · exact resolveHit_coins_ge s _

/-- A failed round state that has not yet used its continue. -/
def failedSt : GameSt := { mkInit 0 1 false with gameState := GameState.failed }

/-- A failed round state that has already used its continue. -/
def usedSt : GameSt :=
  { mkInit 0 1 false with gameState := GameState.failed, hasUsedContinue := true }

/-- A playing state whose next hit angle (175°) is 5° from the stuck knife. -/
def collideSt : GameSt :=
  { mkInit 0 1 false with gameState := GameState.playing, stuckKnives := [170], rotation := 5 }

/-- A plain win state of a normal stage. -/
def winSt : GameSt := { mkInit 0 1 false with gameState := GameState.win }

-- ==================== CLAIM THEOREMS ====================

/-- C1: in every reachable round state the angles in the stuck-knife ledger
are pairwise at angular distance (min of the absolute difference and 360 minus
it) at least 18 degrees: a colliding candidate is never appended, the round
fails instead. -/
theorem stuck_knives_pairwise_separated (s : GameSt) (h : Reachable s) :
    List.Pairwise (fun a b => COLLISION_GAP ≤ min |a - b| (360 - |a - b|))
      s.stuckKnives :=
  ((inv_reachable s h).2.2.2.2).imp fun hab => by rw [← angDiff_eq_min]; exact hab

/-- Witness: the ledger of the concrete completed round is pairwise separated. -/
theorem stuck_knives_pairwise_separated_witness :
    List.Pairwise (fun a b => COLLISION_GAP ≤ min |a - b| (360 - |a - b|))
      winFinal.stuckKnives :=
  stuck_knives_pairwise_separated winFinal reach_winFinal

/-- C2: in every reachable state the phase is win only with the ledger size
equal to the stage's knife budget (the boss's budget on a boss stage, else
10); and every step that newly enters the win phase is a throw resolved from
the playing phase whose hit angle did not collide. -/
theorem win_phase_characterization :
    (∀ s : GameSt, Reachable s → s.gameState = GameState.win →
      s.stuckKnives.length = totalKnivesOf s) ∧
    (∀ s s' : GameSt, Step s s' → s.gameState ≠ GameState.win →
      s'.gameState = GameState.win →
      s.gameState = GameState.playing ∧
        wouldCollide s.stuckKnives (hitAngleOf s) = false) := by
  constructor
  · intro s h hw
    exact (inv_reachable s h).2.2.2.1 hw
  · intro s s' hstep hne hw
    rcases hstep with ⟨a, s, hg⟩
    cases a with
    | tick => exact absurd hw hne
    | throw =>
        by_cases hguard : s.gameState ≠ .playing ∨ s.knivesLeft ≤ 0 ∨ s.isThrowing = true
        · rw [applyAct, throwKnife_noop s hguard] at hw
          exact absurd hw hne
        · push_neg at hguard
          obtain ⟨hp, hk, ht⟩ := hguard
          have ht' : s.isThrowing = false := by
            rcases hb : s.isThrowing
            · rfl
            · exact absurd hb ht
          rcases hcol : wouldCollide s.stuckKnives (hitAngleOf s) with _ | _
          · exact ⟨hp, hcol ▸ rfl⟩
          · rw [applyAct, throwKnife_collide s hp hk ht' hcol] at hw
            simp at hw
    | playBtn offset => exact absurd hw (initGame_not_win 1 offset s)
    | restartBtn offset => exact absurd hw (initGame_not_win 1 offset _)
    | nextBtn offset => exact absurd hw (initGame_not_win (s.stage + 1) offset _)
    | doubleBtn offset => exact absurd hw (initGame_not_win (s.stage + 1) offset _)
    | continueBtn =>
        simp only [applyAct, watchAdContinue] at hw
        exact absurd hw (by decide)
    | bossStartBtn offset =>
        rcases hb : s.currentBoss with _ | b
        · simp only [applyAct, startBossLevel, hb] at hw
          exact absurd hw hne
        · simp [applyAct, startBossLevel, hb] at hw
    | claimBtn => exact absurd hw hne

/-- Witness: the concrete winning run satisfies both parts at its last step. -/
theorem win_phase_characterization_witness :
    winFinal.stuckKnives.length = totalKnivesOf winFinal ∧
    (winPre.gameState = GameState.playing ∧
      wouldCollide winPre.stuckKnives (hitAngleOf winPre) = false) := by
  constructor
  · exact win_phase_characterization.1 winFinal reach_winFinal (by with_unfolding_all decide)
  · exact win_phase_characterization.2 winPre winFinal step_winPre_winFinal
      (by with_unfolding_all decide) (by with_unfolding_all decide)

/-- C3: when `hasUsedContinue` is already true, the continue press is
rejected by the controller (the button is rendered only while
`hasUsedContinue` is false): the round state is left completely unchanged. -/
theorem continue_rejected_after_use (s : GameSt) (h : s.hasUsedContinue = true) :
    pressContinue s = s := by
  rw [pressContinue, if_neg]
  simp [h]

/-- Witness: the rejected press on a concrete failed state that already used it. -/
theorem continue_rejected_after_use_witness : pressContinue usedSt = usedSt :=
  continue_rejected_after_use usedSt rfl

/-- C4: a throw whose resolved hit angle is strictly closer than 18 degrees
to some stuck knife only flips the phase to failed: the offending angle is
not appended, and ledger, knife budget, score, target field and coins all
stay exactly as they were. -/
theorem failed_throw_changes_only_phase (s : GameSt)
    (hp : s.gameState = GameState.playing) (hk : 0 < s.knivesLeft)
    (ht : s.isThrowing = false)
    (hc : ∃ k ∈ s.stuckKnives, angDiff k (hitAngleOf s) < COLLISION_GAP) :
    throwKnife s = { s with gameState := GameState.failed } :=
  throwKnife_collide s hp hk ht ((wouldCollide_true_iff s.stuckKnives (hitAngleOf s)).mpr hc)

/-- Witness: the colliding throw at 175° against the stuck knife at 170°. -/
theorem failed_throw_changes_only_phase_witness :
    throwKnife collideSt = { collideSt with gameState := GameState.failed } :=
  failed_throw_changes_only_phase collideSt rfl (by with_unfolding_all decide) rfl
    ⟨170, by simp [collideSt, mkInit], by with_unfolding_all decide⟩

/-- C5: from a failed round that has not used its continue, the continue
press sets `knivesLeft` to exactly 3 and the phase back to playing, while
the stuck-knife ledger, the target field (apples and hit count) and the
score are unchanged. -/
theorem continue_effect (s : GameSt) (hf : s.gameState = GameState.failed)
    (hu : s.hasUsedContinue = false) :
    (pressContinue s).knivesLeft = 3 ∧
    (pressContinue s).gameState = GameState.playing ∧
    (pressContinue s).stuckKnives = s.stuckKnives ∧
    (pressContinue s).apples = s.apples ∧
    (pressContinue s).applesHit = s.applesHit ∧
    (pressContinue s).score = s.score := by
  rw [pressContinue, if_pos ⟨hf, hu⟩]
  exact ⟨rfl, rfl, rfl, rfl, rfl, rfl⟩

/-- Witness: the continue press on a concrete failed state. -/
theorem continue_effect_witness :
    (pressContinue failedSt).knivesLeft = 3 ∧
    (pressContinue failedSt).gameState = GameState.playing ∧
    (pressContinue failedSt).stuckKnives = failedSt.stuckKnives ∧
    (pressContinue failedSt).apples = failedSt.apples ∧
    (pressContinue failedSt).applesHit = failedSt.applesHit ∧
    (pressContinue failedSt).score = failedSt.score :=
  continue_effect failedSt rfl rfl

/-- C6: the concrete freshly-initialised stage-1 round completed by the ten
throws of `winActs` — pairwise at least 18° apart, no apple hit — ends in
the win phase with the score increased by exactly 10*10 + 50 from its
initial 0, having placed all 10 budgeted knives. -/
theorem normal_stage_win_scenario :
    winFinal.gameState = GameState.win ∧
    winFinal.score = 10 * 10 + 50 ∧
    winFinal.applesHit = 0 ∧
    winFinal.stuckKnives.length = 10 ∧
    List.Pairwise (fun a b => COLLISION_GAP ≤ angDiff a b) winFinal.stuckKnives := by
  with_unfolding_all decide

/-- C7: claiming the daily reward on streak day d in 1..7 credits exactly
`DAILY_REWARDS[(d-1) mod 7]` coins (table 50,100,150,200,300,500,1000) and
advances the streak day to `(d mod 7) + 1`; in particular day 7 wraps to 1. -/
theorem daily_reward_claim (c d : Nat) (h1 : 1 ≤ d) (h7 : d ≤ 7) :
    (claimDailyReward (mkInit c d true)).coins =
      c + DAILY_REWARDS.getD ((d - 1) % 7) 0 ∧
    (claimDailyReward (mkInit c d true)).rewardDay = d % 7 + 1 ∧
    (d = 7 → (claimDailyReward (mkInit c d true)).rewardDay = 1) := by
  refine ⟨?_, ?_, ?_⟩
  · simp [claimDailyReward, mkInit, dailyRewardFor, DAILY_REWARDS]
  · simp [claimDailyReward, mkInit, DAILY_REWARDS]
  · intro h
    subst h
    simp [claimDailyReward, mkInit, DAILY_REWARDS]

/-- Witness: claiming on day 7 credits 1000 and wraps the streak day to 1. -/
theorem daily_reward_claim_witness :
    (claimDailyReward (mkInit 0 7 true)).coins = 1000 ∧
    (claimDailyReward (mkInit 0 7 true)).rewardDay = 1 := by
  have h := daily_reward_claim 0 7 (by norm_num) (by norm_num)
  exact ⟨by rw [h.1]; decide, h.2.2 rfl⟩

/-- C9: no step of the game ever decreases the coin balance — the core only
credits, never debits. -/
theorem coins_never_decrease (s s' : GameSt) (h : Step s s') : s.coins ≤ s'.coins := by
  rcases h with ⟨a, s, hg⟩
  cases a with
  | tick => exact le_refl _
  | throw => exact throwKnife_coins_ge s
  | playBtn offset => exact le_of_eq (initGame_coins 1 offset s).symm
  | restartBtn offset => exact le_of_eq (initGame_coins 1 offset _).symm
  | nextBtn offset =>
      show s.coins ≤ (nextStage offset s).coins
      rw [nextStage, initGame_coins]
  | doubleBtn offset =>
      show s.coins ≤ (watchAdDouble offset s).coins
      rw [watchAdDouble, nextStage, initGame_coins]
      exact Nat.le_add_right _ _
  | continueBtn => exact le_refl _
  | bossStartBtn offset =>
      rcases hb : s.currentBoss with _ | b <;>
        simp [applyAct, startBossLevel, hb]
  | claimBtn => exact Nat.le_add_right _ _

/-- Witness: the PLAY press from the initial state does not decrease coins. -/
theorem coins_never_decrease_witness :
    (mkInit 0 1 false).coins ≤ (applyAct (Act.playBtn 0) (mkInit 0 1 false)).coins :=
  coins_never_decrease (mkInit 0 1 false) (applyAct (Act.playBtn 0) (mkInit 0 1 false))
    (Step.mk (Act.playBtn 0) (mkInit 0 1 false) (by with_unfolding_all decide))

/-- C10: from a win state, the double-reward flow credits exactly one more
stage-completion reward (the boss's reward on a boss round, else 50) and
leaves the score unchanged through the advance to the next stage: the
doubling applies to coins only. -/
theorem double_reward_coins_only (offset : ℚ) (s : GameSt)
    (h_win : s.gameState = GameState.win) :
    (watchAdDouble offset s).coins = s.coins + stageRewardOf s ∧
    (watchAdDouble offset s).score = s.score := by
  rw [watchAdDouble, nextStage]
  exact ⟨by rw [initGame_coins], by rw [initGame_score]⟩

/-- Witness: the double-reward press on a concrete normal-stage win state. -/
theorem double_reward_coins_only_witness :
    (watchAdDouble 0 winSt).coins = winSt.coins + stageRewardOf winSt ∧
    (watchAdDouble 0 winSt).score = winSt.score :=
  double_reward_coins_only 0 winSt rfl
